import Mathlib

/-!
# Verification of the `foc` field-oriented-control math core

Shallow embedding of the `foc` Rust crate (Park/Clarke transforms, PWM
modulation strategies, PI/PID controllers) into Lean 4, with proofs of the
specification claims.

`f32` values are modelled as exact rationals (`ℚ`); the crate's decimal
constants `SQRT_3` and `FRAC_1_SQRT_3` are embedded as the exact rational
values of their source literals, so the floating-point round-trip error of
the Clarke transform appears here as the (tiny, nonzero) defect of
`SQRT_3 * FRAC_1_SQRT_3 - 1`.
-/

namespace Foc

/-! ## Constants (src/lib.rs) -/

/-- Constant `FRAC_1_SQRT_3` from src/lib.rs, the exact rational value of the
source literal `0.577350269189625764509148780501957456_f32`. -/
def FRAC_1_SQRT_3 : ℚ := 0.577350269189625764509148780501957456

/-- Constant `SQRT_3` from src/lib.rs, the exact rational value of the source
literal `1.732050807568877293527446341505872367_f32`. -/
def SQRT_3 : ℚ := 1.732050807568877293527446341505872367

/-! ## Reference-frame value types (src/park_clarke.rs) -/

/-- Type `RotatingReferenceFrame`: a value in a reference frame that moves with
the electrical angle of the motor. -/
structure RotatingReferenceFrame where
  d : ℚ
  q : ℚ
deriving DecidableEq

/-- Type `TwoPhaseReferenceFrame`: a value in a stationary orthogonal
two-axis reference frame. -/
structure TwoPhaseReferenceFrame where
  alpha : ℚ
  beta : ℚ
deriving DecidableEq

/-- Type `ThreePhaseReferenceFrame`: a three-phase value in a stationary
reference frame; the values do not necessarily sum to 0. -/
structure ThreePhaseReferenceFrame where
  a : ℚ
  b : ℚ
  c : ℚ
deriving DecidableEq

/-- Type `ThreePhaseBalancedReferenceFrame`: a three-phase value where the three
values sum to 0, so the third is omitted. -/
structure ThreePhaseBalancedReferenceFrame where
  a : ℚ
  b : ℚ
deriving DecidableEq

/-! ## Clarke / Park transforms (src/park_clarke.rs) -/

/-- Function `clarke`: the Clarke transform (equations 1-4 of the Microsemi guide).
`alpha = a`, `beta = FRAC_1_SQRT_3 * (a + 2*b)`. -/
def clarke (inputs : ThreePhaseBalancedReferenceFrame) : TwoPhaseReferenceFrame :=
  { alpha := inputs.a
    beta := FRAC_1_SQRT_3 * (inputs.a + 2 * inputs.b) }

/-- Function `inverse_clarke`: the inverse Clarke transform (equations 5-7).
`a = alpha`, `b = (-alpha + SQRT_3*beta)/2`, `c = (-alpha - SQRT_3*beta)/2`. -/
def inverse_clarke (inputs : TwoPhaseReferenceFrame) : ThreePhaseReferenceFrame :=
  { a := inputs.alpha
    b := (-inputs.alpha + SQRT_3 * inputs.beta) / 2
    c := (-inputs.alpha - SQRT_3 * inputs.beta) / 2 }

/-- Function `park`: the Park transform (equations 8-9).
`d = cos*alpha + sin*beta`, `q = cos*beta - sin*alpha`. -/
def park (cos_angle sin_angle : ℚ) (inputs : TwoPhaseReferenceFrame) :
    RotatingReferenceFrame :=
  { d := cos_angle * inputs.alpha + sin_angle * inputs.beta
    q := cos_angle * inputs.beta - sin_angle * inputs.alpha }

/-- Function `inverse_park`: the inverse Park transform (equations 10-11).
`alpha = cos*d - sin*q`, `beta = sin*d + cos*q`. -/
def inverse_park (cos_angle sin_angle : ℚ) (inputs : RotatingReferenceFrame) :
    TwoPhaseReferenceFrame :=
  { alpha := cos_angle * inputs.d - sin_angle * inputs.q
    beta := sin_angle * inputs.d + cos_angle * inputs.q }

/-! ## PWM modulation (src/pwm.rs) -/

/-- Rust `f32::signum`: `1.0` when the sign bit is clear (including
`+0.0`), `-1.0` when it is set (including `-0.0`). The rational model has
a single zero, which this definition places on the positive branch
(Rust's `+0.0`); it cannot represent `-0.0`, so statements that touch an
exactly-zero component are confined to facts independent of the zero's
sign bit (the output there is `1` or `-1`, never `0`). -/
def signum (x : ℚ) : ℚ := if 0 ≤ x then 1 else -1

/-- Rust `f32::is_sign_positive` in the rational model: zero is
sign-positive (Rust's `+0.0`). -/
def is_sign_positive (x : ℚ) : Bool := decide (0 ≤ x)

/-- The auxiliary `x` axis of `SpaceVector::modulate`: `x = beta`. -/
def svX (v : TwoPhaseReferenceFrame) : ℚ := v.beta

/-- The auxiliary `y` axis of `SpaceVector::modulate`:
`y = (beta + SQRT_3*alpha) / 2`. -/
def svY (v : TwoPhaseReferenceFrame) : ℚ := (v.beta + SQRT_3 * v.alpha) / 2

/-- The auxiliary `z` axis of `SpaceVector::modulate`:
`z = (beta - SQRT_3*alpha) / 2`. -/
def svZ (v : TwoPhaseReferenceFrame) : ℚ := (v.beta - SQRT_3 * v.alpha) / 2

/-- The sector-classification `match` of `SpaceVector::modulate`, with the
source's arms in source order (Rust `match` is sequential, so the `_`
wildcards only see the combinations not captured by earlier arms). -/
def svSector (px py pz : Bool) : ℕ :=
  match px, py, pz with
  | true, true, false => 1
  | _, true, true => 2
  | true, false, true => 3
  | false, false, true => 4
  | _, false, false => 5
  | false, true, false => 6

/-- Function `SpaceVector::modulate` from src/pwm.rs. The `unreachable!("invalid
sector")` arm of the second `match` is modelled as `none`; every other
path returns `some` output triple. -/
def SpaceVector.modulate (v : TwoPhaseReferenceFrame) : Option (ℚ × ℚ × ℚ) :=
  match svSector (is_sign_positive (svX v)) (is_sign_positive (svY v))
      (is_sign_positive (svZ v)) with
  | 1 | 4 => some (svX v - svZ v, svX v + svZ v, -svX v + svZ v)
  | 2 | 5 => some (svY v - svZ v, svY v + svZ v, -svY v - svZ v)
  | 3 | 6 => some (svY v - svX v, -svY v + svX v, -svY v - svX v)
  | _ => none

/-- Function `Sinusoidal::modulate` from src/pwm.rs: the three components of
`inverse_clarke`. -/
def Sinusoidal.modulate (v : TwoPhaseReferenceFrame) : ℚ × ℚ × ℚ :=
  ((inverse_clarke v).a, (inverse_clarke v).b, (inverse_clarke v).c)

/-- Function `Trapezoidal::modulate` from src/pwm.rs: the signum of each
inverse-Clarke component scaled by 2. -/
def Trapezoidal.modulate (v : TwoPhaseReferenceFrame) : ℚ × ℚ × ℚ :=
  (signum ((inverse_clarke v).a * 2), signum ((inverse_clarke v).b * 2),
    signum ((inverse_clarke v).c * 2))

/-- Function `Square::modulate` from src/pwm.rs: the signum of each inverse-Clarke
component. -/
def Square.modulate (v : TwoPhaseReferenceFrame) : ℚ × ℚ × ℚ :=
  (signum (inverse_clarke v).a, signum (inverse_clarke v).b,
    signum (inverse_clarke v).c)

/-- Rust `f32::clamp`: `if self < min { min } else if self > max { max }
else { self }`. -/
def rustClamp (x lo hi : ℚ) : ℚ := if x < lo then lo else if hi < x then hi else x

/-- One component of `Modulation::as_compare_value`:
`(((val + 1.0) * (max as f32 + 1.0)) / 2.0).clamp(0.0, max as f32) as u16`.
The `as u16` cast truncates toward zero; after the clamp the value lies in
`[0, max]`, so it is the floor. -/
def toCompare (val : ℚ) (mx : ℕ) : ℕ :=
  (⌊rustClamp ((val + 1) * ((mx : ℚ) + 1) / 2) 0 (mx : ℚ)⌋).toNat

/-- Method `Modulation::as_compare_value`, the trait's provided method, for an
arbitrary strategy `modulate`: apply `toCompare` to each modulated
component. -/
def as_compare_value (modulate : TwoPhaseReferenceFrame → ℚ × ℚ × ℚ)
    (v : TwoPhaseReferenceFrame) (mx : ℕ) : ℕ × ℕ × ℕ :=
  (toCompare (modulate v).1 mx, toCompare (modulate v).2.1 mx,
    toCompare (modulate v).2.2 mx)

/-! ## Spec-side definitions for the space-vector claim (§4.3) -/

/-- Modelled from the spec (§4.3 step 2): the sector table written as an
explicit function of the sign triple, one row per listed pattern, the
`·` wildcard rows expanded to both values of `x`'s sign. -/
def specSector (px py pz : Bool) : ℕ :=
  match px, py, pz with
  | true, true, false => 1
  | true, true, true => 2
  | false, true, true => 2
  | true, false, true => 3
  | false, false, true => 4
  | true, false, false => 5
  | false, false, false => 5
  | false, true, false => 6

/-- Modelled from the spec (§4.3): the whole space-vector algorithm as the
claim states it — auxiliary axes, sector from the sign triple with ties at
zero on the positive branch, then the paired output formulas for sector
groups {1,4}, {2,5}, {3,6}. -/
def svpwmSpec (v : TwoPhaseReferenceFrame) : ℚ × ℚ × ℚ :=
  let x := v.beta
  let y := (v.beta + SQRT_3 * v.alpha) / 2
  let z := (v.beta - SQRT_3 * v.alpha) / 2
  match specSector (decide (0 ≤ x)) (decide (0 ≤ y)) (decide (0 ≤ z)) with
  | 1 | 4 => (x - z, x + z, -x + z)
  | 2 | 5 => (y - z, y + z, -y - z)
  | 3 | 6 => (y - x, -y + x, -y - x)
  | _ => (0, 0, 0)

/-- Modelled from the spec: the mathematical three-valued sign the claim
about `Square::modulate` uses (`+1`, `-1`, or `0`, with exact zero mapping
to `0`). -/
def mathSign (x : ℚ) : ℚ := if 0 < x then 1 else if x < 0 then -1 else 0

/-- The source's sequential sector match agrees with the spec's table on
all 8 sign-triple combinations. -/
lemma svSector_eq_specSector (px py pz : Bool) :
    svSector px py pz = specSector px py pz := by
  cases px <;> cases py <;> cases pz <;> rfl

/-- Lemma: `SpaceVector::modulate` never takes the `unreachable!` arm and returns
exactly the spec's algorithm output. -/
lemma spaceVector_modulate_eq (v : TwoPhaseReferenceFrame) :
    SpaceVector.modulate v = some (svpwmSpec v) := by
  rw [SpaceVector.modulate, svpwmSpec]
  rw [is_sign_positive, is_sign_positive, is_sign_positive,
    svSector_eq_specSector, svX, svY, svZ]
  cases hx : decide (0 ≤ v.beta) <;>
    cases hy : decide (0 ≤ (v.beta + SQRT_3 * v.alpha) / 2) <;>
    cases hz : decide (0 ≤ (v.beta - SQRT_3 * v.alpha) / 2) <;>
    rfl

/-- Every compare value is at most `mx`. -/
lemma toCompare_le (val : ℚ) (mx : ℕ) : toCompare val mx ≤ mx := by
  rw [toCompare, rustClamp]
  split_ifs with h1 h2
  · simp
  · simp
  · have hx : (val + 1) * ((mx : ℚ) + 1) / 2 ≤ (mx : ℚ) := not_lt.mp h2
    have hfloor : ⌊(val + 1) * ((mx : ℚ) + 1) / 2⌋ ≤ (mx : ℤ) := by
      calc ⌊(val + 1) * ((mx : ℚ) + 1) / 2⌋ ≤ ⌊(mx : ℚ)⌋ := Int.floor_le_floor hx
        _ = (mx : ℤ) := Int.floor_natCast mx
    omega

/-- A modulated value of exactly `-1` yields compare value `0`. -/
lemma toCompare_neg_one (mx : ℕ) : toCompare (-1) mx = 0 := by
  have h0 : ((-1 : ℚ) + 1) * ((mx : ℚ) + 1) / 2 = 0 := by ring
  rw [toCompare, h0, rustClamp, if_neg (lt_irrefl 0),
    if_neg (not_lt.mpr (Nat.cast_nonneg mx))]
  simp

/-- A modulated value of exactly `+1` yields compare value `mx` (the value
`mx + 1` before the clamp is clamped down to `mx`). -/
lemma toCompare_one (mx : ℕ) : toCompare 1 mx = mx := by
  have h0 : ((1 : ℚ) + 1) * ((mx : ℚ) + 1) / 2 = (mx : ℚ) + 1 := by ring
  rw [toCompare, h0, rustClamp,
    if_neg (not_lt.mpr (by positivity : (0 : ℚ) ≤ (mx : ℚ) + 1)),
    if_pos (by linarith [Nat.cast_nonneg (α := ℚ) mx] : (mx : ℚ) < (mx : ℚ) + 1)]
  simp

/-- A modulated value above `+1` is clamped to `mx`, not wrapped. -/
lemma toCompare_of_one_lt (val : ℚ) (mx : ℕ) (h : 1 < val) :
    toCompare val mx = mx := by
  have hmx : (0 : ℚ) ≤ (mx : ℚ) := Nat.cast_nonneg mx
  have hw : (mx : ℚ) < (val + 1) * ((mx : ℚ) + 1) / 2 := by nlinarith
  rw [toCompare, rustClamp, if_neg (not_lt.mpr (by linarith)), if_pos hw]
  simp

/-- A modulated value below `-1` is clamped to `0`, not wrapped. -/
lemma toCompare_of_lt_neg_one (val : ℚ) (mx : ℕ) (h : val < -1) :
    toCompare val mx = 0 := by
  have hmx : (0 : ℚ) ≤ (mx : ℚ) := Nat.cast_nonneg mx
  have hw : (val + 1) * ((mx : ℚ) + 1) / 2 < 0 := by nlinarith
  rw [toCompare, rustClamp, if_pos hw]
  simp

/-! ## PI / PID controllers (src/pid.rs) -/

/-- Type `IntegralComponent` from src/pid.rs. -/
structure IntegralComponent where
  k_i : ℚ
  integral : ℚ
deriving DecidableEq

/-- Method `IntegralComponent::update`: accumulate `k_i * error * dt` into the
integral and return the new integral (paired with the new state). -/
def IntegralComponent.update (c : IntegralComponent) (error dt : ℚ) :
    ℚ × IntegralComponent :=
  (c.integral + c.k_i * error * dt, ⟨c.k_i, c.integral + c.k_i * error * dt⟩)

/-- Type `DerivativeComponent` from src/pid.rs; `last_measurement` is `none`
before the first update. -/
structure DerivativeComponent where
  k_d : ℚ
  last_measurement : Option ℚ
deriving DecidableEq

/-- Method `DerivativeComponent::update`: derivative-on-measurement, `0` when no
prior measurement exists; records the measurement (paired with the new
state). -/
def DerivativeComponent.update (c : DerivativeComponent) (measurement dt : ℚ) :
    ℚ × DerivativeComponent :=
  (c.k_d * (match c.last_measurement with
    | some last => (measurement - last) / dt
    | none => 0), ⟨c.k_d, some measurement⟩)

/-- Type `PIController` from src/pid.rs. -/
structure PIController where
  k_p : ℚ
  integral : IntegralComponent
deriving DecidableEq

/-- Method `PIController::new`: fresh controller with zero integral. -/
def PIController.new (k_p k_i : ℚ) : PIController :=
  ⟨k_p, ⟨k_i, 0⟩⟩

/-- Method `PIController::update`: `k_p * error + integral.update(error, dt)`
(output paired with the mutated state). -/
def PIController.update (c : PIController) (setpoint measurement dt : ℚ) :
    ℚ × PIController :=
  let error := setpoint - measurement
  let i := c.integral.update error dt
  (c.k_p * error + i.1, ⟨c.k_p, i.2⟩)

/-- Type `PIDController` from src/pid.rs. -/
structure PIDController where
  k_p : ℚ
  integral : IntegralComponent
  derivative : DerivativeComponent
deriving DecidableEq

/-- Method `PIDController::new`: fresh controller with zero integral and no prior
measurement. -/
def PIDController.new (k_p k_i k_d : ℚ) : PIDController :=
  ⟨k_p, ⟨k_i, 0⟩, ⟨k_d, none⟩⟩

/-- Method `PIDController::update`: `k_p * error + integral.update(error, dt) +
derivative.update(measurement, dt)` (output paired with the mutated
state). -/
def PIDController.update (c : PIDController) (setpoint measurement dt : ℚ) :
    ℚ × PIDController :=
  let error := setpoint - measurement
  let i := c.integral.update error dt
  let d := c.derivative.update measurement dt
  (c.k_p * error + i.1 + d.1, ⟨c.k_p, i.2, d.2⟩)

/-- The multiplicative defect of the two source constants: the Clarke
round trip is exact up to this factor. -/
lemma sqrt3_defect_small : |SQRT_3 * FRAC_1_SQRT_3 - 1| < 1 / 10 ^ 30 := by
  rw [SQRT_3, FRAC_1_SQRT_3, abs_lt]
  constructor <;> norm_num

/-- The `b` component of the Clarke round trip, in closed form. -/
lemma clarke_round_trip_b (x : ThreePhaseBalancedReferenceFrame) :
    (inverse_clarke (clarke x)).b - x.b =
      (SQRT_3 * FRAC_1_SQRT_3 - 1) * (x.a + 2 * x.b) / 2 := by
  simp only [clarke, inverse_clarke]
  ring

end Foc

open Foc

/-- C3: for every `ThreePhaseBalancedReferenceFrame` of typical magnitude
(components bounded by `10^6`, which covers all the representative inputs
`(0,0)`, `(0,1)`, `(1,0)`, `(-0.5,-0.5)`, `(13,21)`), the round trip
`inverse_clarke (clarke x)` reproduces `x.a` exactly and `x.b` to within
`1e-4`. -/
theorem clarke_round_trip (x : ThreePhaseBalancedReferenceFrame)
    (ha : |x.a| ≤ 10 ^ 6) (hb : |x.b| ≤ 10 ^ 6) :
    |(inverse_clarke (clarke x)).a - x.a| < 1 / 10 ^ 4 ∧
    |(inverse_clarke (clarke x)).b - x.b| < 1 / 10 ^ 4 := by
  constructor
  · simp only [clarke, inverse_clarke]
    norm_num
  · rw [clarke_round_trip_b]
    have h1 : |SQRT_3 * FRAC_1_SQRT_3 - 1| < 1 / 10 ^ 30 := sqrt3_defect_small
    have h2 : |x.a + 2 * x.b| ≤ 3 * 10 ^ 6 := by
      calc |x.a + 2 * x.b| ≤ |x.a| + |2 * x.b| := abs_add _ _
        _ = |x.a| + 2 * |x.b| := by rw [abs_mul]; norm_num
        _ ≤ 10 ^ 6 + 2 * 10 ^ 6 := by linarith
        _ = 3 * 10 ^ 6 := by norm_num
    rw [abs_div, abs_mul, abs_two]
    have h3 : |SQRT_3 * FRAC_1_SQRT_3 - 1| * |x.a + 2 * x.b| ≤ 1 / 10 ^ 30 * (3 * 10 ^ 6) :=
      mul_le_mul (le_of_lt h1) h2 (abs_nonneg _) (by norm_num)
    linarith

/-- Witness for C3 at the representative input `(13, 21)`. -/
theorem clarke_round_trip_witness :
    |(inverse_clarke (clarke ⟨13, 21⟩)).a - 13| < 1 / 10 ^ 4 ∧
    |(inverse_clarke (clarke ⟨13, 21⟩)).b - 21| < 1 / 10 ^ 4 :=
  clarke_round_trip ⟨13, 21⟩ (by norm_num) (by norm_num)

/-- C4: for every `TwoPhaseReferenceFrame` and every `(cos_angle, sin_angle)`
pair with `cos_angle^2 + sin_angle^2 = 1`, the round trip
`inverse_park (park x)` reproduces `x` exactly (hence within any
floating-point tolerance, in particular 1e-4). -/
theorem park_round_trip (cos_angle sin_angle : ℚ) (x : TwoPhaseReferenceFrame)
    (h : cos_angle ^ 2 + sin_angle ^ 2 = 1) :
    inverse_park cos_angle sin_angle (park cos_angle sin_angle x) = x := by
  simp only [inverse_park, park]
  obtain ⟨a, b⟩ := x
  simp only [TwoPhaseReferenceFrame.mk.injEq]
  constructor
  · linear_combination a * h
  · linear_combination b * h

/-- Witness for C4 at the unit pair `(3/5, 4/5)` and input `{alpha 2, beta 3}`. -/
theorem park_round_trip_witness :
    (3 / 5 : ℚ) ^ 2 + (4 / 5 : ℚ) ^ 2 = 1 ∧
    inverse_park (3 / 5) (4 / 5) (park (3 / 5) (4 / 5) ⟨2, 3⟩) = ⟨2, 3⟩ :=
  ⟨by norm_num, park_round_trip (3 / 5) (4 / 5) ⟨2, 3⟩ (by norm_num)⟩

/-- C5: for every `TwoPhaseReferenceFrame`, the three components of
`inverse_clarke` sum to exactly 0: the inverse Clarke transform is
balance-preserving. -/
theorem inverse_clarke_balanced (v : TwoPhaseReferenceFrame) :
    (inverse_clarke v).a + (inverse_clarke v).b + (inverse_clarke v).c = 0 := by
  simp only [inverse_clarke]
  ring

/-- C1: for every `TwoPhaseReferenceFrame` input, `SpaceVector::modulate`
returns exactly the three phase values prescribed by §4.3: auxiliary axes
`x = beta`, `y = (beta + sqrt(3)*alpha)/2`, `z = (beta - sqrt(3)*alpha)/2`,
sector from the sign triple by the fixed table (ties at zero on the
positive branch), and the paired output formulas for sector groups
{1,4}, {2,5}, {3,6}. -/
theorem spaceVector_matches_spec (v : TwoPhaseReferenceFrame) :
    SpaceVector.modulate v = some (svpwmSpec v) :=
  spaceVector_modulate_eq v

/-- C2: for every `TwoPhaseReferenceFrame` input, `SpaceVector::modulate`
never reaches the `unreachable!("invalid sector")` arm: the sector
classification always yields a sector in 1..=6 and the function always
returns an output triple. -/
theorem spaceVector_no_invalid_sector (v : TwoPhaseReferenceFrame) :
    ∃ out : ℚ × ℚ × ℚ, SpaceVector.modulate v = some out :=
  ⟨svpwmSpec v, spaceVector_modulate_eq v⟩

/-- Counterexample to C6: at the input `{alpha 0, beta 0}` the `a` component
of `inverse_clarke` is exactly zero, yet `Square::modulate` outputs `1` for
that phase, not the `0` the claim's three-valued sign requires (Rust
`f32::signum` maps `+0.0` to `1.0`). -/
theorem square_sign_cex :
    (inverse_clarke ⟨0, 0⟩).a = 0 ∧
    (Square.modulate ⟨0, 0⟩).1 ≠ mathSign (inverse_clarke ⟨0, 0⟩).a := by
  constructor <;> decide

/-- C6 (amended): for every `TwoPhaseReferenceFrame`, each component of
`Square::modulate` equals the three-valued sign of the corresponding
`inverse_clarke` component whenever that component is nonzero, and no
output component is ever `0`: a component that is exactly zero maps to
`+1` or `-1` according to the zero's floating-point sign bit (Rust
`f32::signum` of `±0.0`), never to `0`. -/
theorem square_sign_characterization (v : TwoPhaseReferenceFrame) :
    ((inverse_clarke v).a ≠ 0 →
      (Square.modulate v).1 = mathSign (inverse_clarke v).a) ∧
    ((inverse_clarke v).b ≠ 0 →
      (Square.modulate v).2.1 = mathSign (inverse_clarke v).b) ∧
    ((inverse_clarke v).c ≠ 0 →
      (Square.modulate v).2.2 = mathSign (inverse_clarke v).c) ∧
    (Square.modulate v).1 ≠ 0 ∧ (Square.modulate v).2.1 ≠ 0 ∧
    (Square.modulate v).2.2 ≠ 0 := by
  have hsign : ∀ x : ℚ, (x ≠ 0 → signum x = mathSign x) ∧ signum x ≠ 0 := by
    intro x
    rw [signum, mathSign]
    rcases lt_trichotomy (0 : ℚ) x with h | h | h
    · rw [if_pos h.le, if_pos h]
      exact ⟨fun _ => rfl, one_ne_zero⟩
    · rw [if_pos h.le]
      exact ⟨fun hx => absurd h.symm hx, one_ne_zero⟩
    · rw [if_neg (by linarith), if_neg (by linarith), if_pos h]
      exact ⟨fun _ => rfl, by norm_num⟩
  exact ⟨(hsign _).1, (hsign _).1, (hsign _).1, (hsign _).2, (hsign _).2,
    (hsign _).2⟩

/-- Witness for the amended C6 at `{alpha 1, beta 0}`, where all three
inverse-Clarke components `(1, -1/2, -1/2)` are nonzero. -/
theorem square_sign_characterization_witness :
    (inverse_clarke ⟨1, 0⟩).a ≠ 0 ∧
    (Square.modulate ⟨1, 0⟩).1 = mathSign (inverse_clarke ⟨1, 0⟩).a ∧
    (inverse_clarke ⟨1, 0⟩).b ≠ 0 ∧
    (Square.modulate ⟨1, 0⟩).2.1 = mathSign (inverse_clarke ⟨1, 0⟩).b ∧
    (inverse_clarke ⟨1, 0⟩).c ≠ 0 ∧
    (Square.modulate ⟨1, 0⟩).2.2 = mathSign (inverse_clarke ⟨1, 0⟩).c := by
  have ha : (inverse_clarke ⟨1, 0⟩).a ≠ 0 := by simp [inverse_clarke]
  have hb : (inverse_clarke ⟨1, 0⟩).b ≠ 0 := by simp [inverse_clarke]
  have hc : (inverse_clarke ⟨1, 0⟩).c ≠ 0 := by simp [inverse_clarke]
  obtain ⟨h1, h2, h3, _, _, _⟩ := square_sign_characterization ⟨1, 0⟩
  exact ⟨ha, h1 ha, hb, h2 hb, hc, h3 hc⟩

/-- C7: for every `TwoPhaseReferenceFrame`, `Trapezoidal::modulate` and
`Square::modulate` agree componentwise: the factor-of-two scaling before
the signum never changes the result. -/
theorem trapezoidal_eq_square (v : TwoPhaseReferenceFrame) :
    Trapezoidal.modulate v = Square.modulate v := by
  rw [Trapezoidal.modulate, Square.modulate]
  have h : ∀ x : ℚ, signum (x * 2) = signum x := by
    intro x
    rw [signum, signum]
    rcases le_or_lt 0 x with h | h
    · rw [if_pos (by linarith), if_pos h]
    · rw [if_neg (by linarith), if_neg (by linarith)]
  rw [h, h, h]

/-- C8: for every modulation strategy, input and `max` in the `u16` range,
`as_compare_value` maps each modulated component `v` through
`((v+1)*(max+1))/2`, clamped to `[0, max]` and truncated; a value of
exactly `-1` yields `0` and exactly `+1` yields `max`, values outside
`[-1, 1]` are clamped rather than wrapped, and every compare value lies in
`[0, max]`. -/
theorem compare_value_contract
    (strat : TwoPhaseReferenceFrame → ℚ × ℚ × ℚ)
    (v : TwoPhaseReferenceFrame) (mx : ℕ) (_hmx : mx ≤ 65535) :
    as_compare_value strat v mx =
      (toCompare (strat v).1 mx, toCompare (strat v).2.1 mx,
        toCompare (strat v).2.2 mx) ∧
    toCompare (-1) mx = 0 ∧
    toCompare 1 mx = mx ∧
    (∀ val : ℚ, 1 < val → toCompare val mx = mx) ∧
    (∀ val : ℚ, val < -1 → toCompare val mx = 0) ∧
    (∀ val : ℚ, toCompare val mx ≤ mx) :=
  ⟨rfl, toCompare_neg_one mx, toCompare_one mx,
    fun val h => toCompare_of_one_lt val mx h,
    fun val h => toCompare_of_lt_neg_one val mx h,
    fun val => toCompare_le val mx⟩

/-- Witness for C8 at `max = 4095` with a strategy returning `(-1, 1, 2)`:
the compare values are `(0, 4095, 4095)`. -/
theorem compare_value_contract_witness :
    as_compare_value (fun _ => (-1, 1, 2)) ⟨0, 0⟩ 4095 = (0, 4095, 4095) := by
  obtain ⟨hmap, hneg, hone, hhi, _, _⟩ :=
    compare_value_contract (fun _ => (-1, 1, 2)) ⟨0, 0⟩ 4095 (by norm_num)
  rw [hmap]
  rw [hneg, hone, hhi 2 (by norm_num)]

/-- C9: the first `update` of a freshly constructed `PIDController`
contributes a zero derivative term: its output is
`k_p*(setpoint - measurement) + k_i*(setpoint - measurement)*dt`, for any
gains, setpoint, measurement and `dt`. -/
theorem pid_first_update (k_p k_i k_d setpoint measurement dt : ℚ) :
    ((PIDController.new k_p k_i k_d).update setpoint measurement dt).1 =
      k_p * (setpoint - measurement) + k_i * (setpoint - measurement) * dt := by
  simp only [PIDController.new, PIDController.update, IntegralComponent.update,
    DerivativeComponent.update]
  ring

/-- C10: `update` never changes the gains: for both controllers, the only
state mutated is the integral accumulator (incremented by
`k_i * error * dt`) and, for the PID controller, `last_measurement` (set
to the current measurement). -/
theorem update_preserves_gains :
    (∀ (c : PIController) (setpoint measurement dt : ℚ),
      ((c.update setpoint measurement dt).2.k_p = c.k_p ∧
        (c.update setpoint measurement dt).2.integral.k_i = c.integral.k_i) ∧
      (c.update setpoint measurement dt).2.integral.integral =
        c.integral.integral +
          c.integral.k_i * (setpoint - measurement) * dt) ∧
    (∀ (c : PIDController) (setpoint measurement dt : ℚ),
      ((c.update setpoint measurement dt).2.k_p = c.k_p ∧
        (c.update setpoint measurement dt).2.integral.k_i = c.integral.k_i ∧
        (c.update setpoint measurement dt).2.derivative.k_d =
          c.derivative.k_d) ∧
      (c.update setpoint measurement dt).2.integral.integral =
        c.integral.integral +
          c.integral.k_i * (setpoint - measurement) * dt ∧
      (c.update setpoint measurement dt).2.derivative.last_measurement =
        some measurement) :=
  ⟨fun _ _ _ _ => ⟨⟨rfl, rfl⟩, rfl⟩,
    fun _ _ _ _ => ⟨⟨rfl, rfl, rfl⟩, rfl, rfl⟩⟩
